import Mathlib

/-!
Shallow embedding of the Cortex Sorter core (src/main.py) and proofs about it.

Modelling conventions:
* A filesystem path is a directory string plus a filename split into stem and
  suffix, mirroring pathlib's `stem`/`suffix` decomposition.  Two paths denote
  the same file when directory and full name (stem ++ suffix) agree.
* The filesystem is a list of files, each a path with a string content; file
  size is the content length.  `stat`, `exists` and `rename` are modelled over
  this list.
* The SHA-256 digest is idealised as an injective, whitespace-free encoding of
  the content (claims only need that equal contents give equal, non-blank
  digests).
* Python `str.strip()` is modelled by `pstrip` (dropping ASCII whitespace on
  both ends), `str.lower()` by `strLower`, substring `in` by `strHasSub`.
* External effects (pdfplumber text extraction, OS rename success, the
  stability sleep) are an explicit environment `Env` of oracles; the sqlite
  ledger is a list of records with the UNIQUE constraint modelled as a
  membership test before insert.
* Logging, timestamps and the statistics counters are not modelled; trace
  fields on the result records (rules tried, extractor call count, and so on)
  replace them where a claim needs observability.
-/

namespace Cortex

/-- ASCII whitespace as recognised by the model of Python `str.strip`. -/
def isSpaceChar (c : Char) : Bool :=
  c = ' ' || c = '\t' || c = '\n' || c = '\r'

/-- Characters of a string with leading and trailing whitespace removed. -/
def stripChars (l : List Char) : List Char :=
  (((l.dropWhile isSpaceChar).reverse).dropWhile isSpaceChar).reverse

/-- Model of Python `str.strip()`. -/
def pstrip (s : String) : String :=
  String.mk (stripChars s.data)

/-- Model of Python substring membership `pat in hay` on lists of characters:
`subAt pat hay` holds when `pat` occurs at the start of `hay`. -/
def subAt : List Char → List Char → Bool
  | [], _ => true
  | _ :: _, [] => false
  | p :: ps, h :: hs => p = h && subAt ps hs

/-- `hasSub hay pat`: `pat` occurs contiguously somewhere in `hay`. -/
def hasSub : List Char → List Char → Bool
  | [], pat => pat.isEmpty
  | h :: t, pat => subAt pat (h :: t) || hasSub t pat

/-- Model of Python `pat in hay` for strings. -/
def strHasSub (hay pat : String) : Bool :=
  hasSub hay.data pat.data

/-- Model of Python `str.lower()` (character-wise lowercasing). -/
def strLower (s : String) : String :=
  String.mk (s.data.map Char.toLower)

/-- Model of Python `str.startswith('.')`: the first character is a dot. -/
def startsDot (s : String) : Bool :=
  match s.data with
  | [] => false
  | c :: _ => c = '.'

/-- A filesystem path: directory, filename stem, filename suffix
(pathlib's `stem` and `suffix`, suffix including its leading dot). -/
structure FPath where
  dir : String
  stem : String
  suffix : String
deriving DecidableEq, Repr

/-- The full filename, as pathlib's `name`. -/
def FPath.name (p : FPath) : String := p.stem ++ p.suffix

/-- Two paths denote the same filesystem entry: same directory, same name. -/
def FPath.samePath (p q : FPath) : Bool :=
  p.dir = q.dir && p.name = q.name

/-- A regular file: its path and its byte content (modelled as a string). -/
structure FSFile where
  path : FPath
  content : String
deriving DecidableEq, Repr

/-- Model filesystem: the list of regular files that exist. -/
abbrev FS := List FSFile

/-- `Path.exists()` over the model filesystem. -/
def findFile (fs : FS) (p : FPath) : Option FSFile :=
  fs.find? (fun f => f.path.samePath p)

/-- `Path.exists()` as a boolean. -/
def pathExists (fs : FS) (p : FPath) : Bool :=
  (findFile fs p).isSome

/-- `Path.rename` (the move that `FileOperations.safe_move` performs):
the file at `src` is re-addressed to `dst`; other files are untouched. -/
def moveFile (fs : FS) (src dst : FPath) : FS :=
  fs.map (fun f => if f.path.samePath src then { f with path := dst } else f)

/-- Idealised SHA-256 hex digest of a file content (`hashlib.sha256`):
an injective encoding that is never blank and contains no whitespace at
either end, which is all the ledger code relies on. -/
def sha256 (c : String) : String :=
  String.mk ('h' :: (c.data ++ ['h']))

/-- One row of the `file_hashes` table. -/
structure FileRecord where
  sha256_hash : String
  original_path : FPath
  file_size : Option Nat
  file_name : String
deriving DecidableEq, Repr

/-- The ledger: rows of `file_hashes` in insertion order. -/
abbrev Ledger := List FileRecord

/-- Whether some row already carries this (stripped) digest — the UNIQUE
constraint probe on `sha256_hash`. -/
def hashPresent (db : Ledger) (file_hash : String) : Bool :=
  db.any (fun r => r.sha256_hash = pstrip file_hash)

/-- `DatabaseManager.is_duplicate`: blank hashes are never duplicates,
otherwise an existence check by exact digest equality. -/
def is_duplicate (db : Ledger) (file_hash : String) : Bool :=
  if pstrip file_hash = "" then false
  else hashPresent db file_hash

/-- `DatabaseManager.get_file_hash`: `none` for a missing or empty file,
otherwise the digest of the content.  (The read-failure branches return
`None` as well; the model filesystem has no unreadable files.) -/
def get_file_hash (fs : FS) (p : FPath) : Option String :=
  match findFile fs p with
  | none => none
  | some f => if f.content.length = 0 then none else some (sha256 f.content)

/-- `DatabaseManager.add_file_record`: returns `(inserted?, new ledger)`.
A blank hash is refused; an existing digest trips the UNIQUE constraint
(`sqlite3.IntegrityError`), which the code turns into `False` with no state
change; otherwise the row is appended with the file's current size. -/
def add_file_record (db : Ledger) (fs : FS) (file_hash : String) (p : FPath) :
    Bool × Ledger :=
  if pstrip file_hash = "" then (false, db)
  else if hashPresent db file_hash then (false, db)
  else
    (true, db ++ [{ sha256_hash := pstrip file_hash
                  , original_path := p
                  , file_size := (findFile fs p).map (fun f => f.content.length)
                  , file_name := p.name }])

/-- `PDFAnalyzer.contains_keywords`: blank content never matches; blank
keywords are skipped; otherwise case-insensitive substring membership of any
keyword.  (Only the boolean is modelled; the matched keyword feeds logging.) -/
def contains_keywords (content : String) (keywords : List String) : Bool :=
  if pstrip content = "" then false
  else keywords.any (fun kw =>
    if pstrip kw = "" then false
    else strHasSub (strLower content) (pstrip (strLower kw)))

/-- A sorting rule (`SortingRule` dataclass).  `dest` is the destination
directory.  Optional criteria lists model the `Optional[List[str]]` fields;
`priority` is the derived specificity score. -/
structure SortingRule where
  name : String
  dest : String
  extensions : Option (List String) := none
  name_contains : Option (List String) := none
  content_contains : Option (List String) := none
  priority : Nat := 0
deriving DecidableEq, Repr

/-- Python truthiness of an `Optional[List[str]]` field: present and
non-empty. -/
def truthy : Option (List String) → Bool
  | none => false
  | some l => !l.isEmpty

/-- Number of truthy criteria groups of a rule (the derived priority). -/
def countTruthy (r : SortingRule) : Nat :=
  (if truthy r.extensions then 1 else 0) +
  (if truthy r.name_contains then 1 else 0) +
  (if truthy r.content_contains then 1 else 0)

/-- Extension normalisation from `SortingRule.__post_init__`: lowercase,
leading dot added when missing. -/
def normExt (ext : String) : String :=
  if startsDot ext then strLower ext else "." ++ strLower ext

/-- Keyword normalisation from `SortingRule.__post_init__`: blank keywords
dropped, the rest lowercased and stripped. -/
def normKws (l : List String) : List String :=
  (l.filter (fun kw => pstrip kw ≠ "")).map (fun kw => pstrip (strLower kw))

/-- `SortingRule.__post_init__`: validation and normalisation.  A falsy
(empty) criteria list is left as is — Python only normalises truthy lists.
The priority is the count of truthy criteria groups after normalisation. -/
def mkSortingRule (name : String) (dest : String)
    (extensions name_contains content_contains : Option (List String)) :
    Except String SortingRule :=
  if pstrip name = "" then .error "Rule name cannot be empty"
  else if dest = "" then .error "Rule must have a destination path"
  else
    let exts := extensions.map (fun l => if l.isEmpty then l else l.map normExt)
    let nkws := name_contains.map (fun l => if l.isEmpty then l else normKws l)
    let ckws := content_contains.map (fun l => if l.isEmpty then l else normKws l)
    let r : SortingRule :=
      { name := name, dest := dest, extensions := exts
      , name_contains := nkws, content_contains := ckws }
    .ok { r with priority := countTruthy r }

/-- Stable insertion of a rule into a descending-priority list: the rule goes
in front of the first element whose priority does not exceed its own, hence
after every earlier-configured rule of equal priority. -/
def insertDesc (r : SortingRule) : List SortingRule → List SortingRule
  | [] => [r]
  | x :: xs =>
    if x.priority ≤ r.priority then r :: x :: xs else x :: insertDesc r xs

/-- `Config.__post_init__`'s `rules.sort(key=priority, reverse=True)`:
Python's sort is stable, modelled as stable insertion sort by descending
priority. -/
def sortRules : List SortingRule → List SortingRule
  | [] => []
  | r :: rs => insertDesc r (sortRules rs)

/-- Application configuration (`Config` dataclass); folders are directory
strings, rules are held in evaluation order. -/
structure Config where
  source_folder : String
  duplicate_folder : String
  rules : List SortingRule
deriving DecidableEq, Repr

/-- `Config.__post_init__`: validation, then the stable descending-priority
sort of the rule list.  (The no-rules warning is only a log line.) -/
def mkConfig (source_folder duplicate_folder : String)
    (rules : List SortingRule) : Except String Config :=
  if source_folder = "" then .error "Source folder must be specified"
  else if duplicate_folder = "" then .error "Duplicate folder must be specified"
  else if source_folder = duplicate_folder then
    .error "Source and duplicate folders cannot be the same"
  else .ok { source_folder := source_folder
           , duplicate_folder := duplicate_folder
           , rules := sortRules rules }

/-- External effects of one pipeline run, as oracles:
`moveOk src dst` — whether the OS rename in `safe_move` succeeds;
`extract p` — result of `PDFAnalyzer.extract_text(p, max_pages=10)`
(`none` for any extraction failure; pdfplumber is an external library);
`stable p` — verdict of `FileOperations.wait_for_file_stability`
(a real-time sampling loop, abstracted to its boolean outcome). -/
structure Env where
  moveOk : FPath → FPath → Bool
  extract : FPath → Option String
  stable : FPath → Bool

/-- The numbered candidate `stem_counter ++ suffix` that
`FileOperations.get_unique_path` builds with `with_name`. -/
def candidateAt (p : FPath) (counter : Nat) : FPath :=
  { dir := p.dir, stem := p.stem ++ "_" ++ toString counter, suffix := p.suffix }

/-- The counter loop of `get_unique_path`: try `candidateAt p counter`,
`candidateAt p (counter+1)`, … while fuel remains; error on exhaustion
(the `FileProcessingError` raise). -/
def gupFrom (fs : FS) (p : FPath) : Nat → Nat → Except String FPath
  | _, 0 => .error "Could not generate unique path after max attempts"
  | counter, fuel + 1 =>
    if pathExists fs (candidateAt p counter) then gupFrom fs p (counter + 1) fuel
    else .ok (candidateAt p counter)

/-- `FileOperations.get_unique_path`: the destination itself if free, else the
first free numbered candidate among counters `1 .. max_attempts - 1`
(`range(1, max_attempts)`), else the exhaustion error. -/
def get_unique_path (fs : FS) (destination_path : FPath) (max_attempts : Nat) :
    Except String FPath :=
  if pathExists fs destination_path then
    gupFrom fs destination_path 1 (max_attempts - 1)
  else .ok destination_path

/-- The destination `config.duplicate_folder / file_path.name`. -/
def dupDest (cfg : Config) (p : FPath) : FPath :=
  { dir := cfg.duplicate_folder, stem := p.stem, suffix := p.suffix }

/-- The destination `rule.dest / file_path.name`. -/
def ruleDest (rule : SortingRule) (p : FPath) : FPath :=
  { dir := rule.dest, stem := p.stem, suffix := p.suffix }

/-- `FileSorter.handle_duplicate`: pick a unique path in the duplicate folder
and move the file there.  Naming exhaustion and move failure are both caught
and reported as `false` with the filesystem unchanged; the ledger is never
touched.  (`get_duplicate_info` is only consulted for the log line.) -/
def handle_duplicate (env : Env) (cfg : Config) (fs : FS) (file_path : FPath) :
    Bool × FS :=
  match get_unique_path fs (dupDest cfg file_path) 1000 with
  | .error _ => (false, fs)
  | .ok dest =>
    if env.moveOk file_path dest then (true, moveFile fs file_path dest)
    else (false, fs)

/-- Result of `FileSorter.match_rule`: the `(matched, reason)` pair, plus the
number of text-extractor invocations this call performed (observability for
the extraction-count claims; the code logs but does not count them). -/
structure MatchResult where
  matched : Bool
  reason : String
  extractCalls : Nat
deriving DecidableEq, Repr

/-- `FileSorter.match_rule`: extension group, then filename-keyword group,
then content-keyword group, each rejecting without running later groups.
The content group requires a `.pdf` suffix, then invokes the extractor once;
a failed or empty extraction is a rejection, not an error.  Interpolated
detail in the Python reason strings is elided. -/
def match_rule (env : Env) (fs : FS) (file_path : FPath) (rule : SortingRule) :
    MatchResult :=
  if ¬ pathExists fs file_path then ⟨false, "file does not exist", 0⟩
  else
    let file_suffix := strLower file_path.suffix
    let file_name_lower := strLower file_path.name
    if truthy rule.extensions &&
        !(rule.extensions.getD []).contains file_suffix then
      ⟨false, "extension not in rule extensions", 0⟩
    else if truthy rule.name_contains &&
        !(rule.name_contains.getD []).any
          (fun kw => strHasSub file_name_lower kw) then
      ⟨false, "name keywords not found in filename", 0⟩
    else if truthy rule.content_contains then
      if file_suffix ≠ ".pdf" then
        ⟨false, "content search requires PDF file", 0⟩
      else
        match env.extract file_path with
        | none => ⟨false, "PDF content extraction failed or returned no text", 1⟩
        | some content =>
          if content = "" then
            ⟨false, "PDF content extraction failed or returned no text", 1⟩
          else if contains_keywords content (rule.content_contains.getD []) then
            ⟨true, "all criteria matched", 1⟩
          else
            ⟨false, "content keywords not found in PDF", 1⟩
    else ⟨true, "all criteria matched", 0⟩

/-- Result of `FileSorter._move_file_with_rule`. -/
structure MoveResult where
  ok : Bool
  fs : FS
  db : Ledger
deriving DecidableEq, Repr

/-- `FileSorter._move_file_with_rule`: unique path in the rule destination,
move, and on success record the digest against the new location.  Naming
exhaustion (a raised `FileProcessingError`) and move failure are both caught
and reported as `false` with nothing changed. -/
def move_file_with_rule (env : Env) (fs : FS) (db : Ledger)
    (file_path : FPath) (file_hash : String) (rule : SortingRule) : MoveResult :=
  match get_unique_path fs (ruleDest rule file_path) 1000 with
  | .error _ => ⟨false, fs, db⟩
  | .ok dest =>
    if env.moveOk file_path dest then
      let fs2 := moveFile fs file_path dest
      ⟨true, fs2, (add_file_record db fs2 file_hash dest).2⟩
    else ⟨false, fs, db⟩

/-- Result of `FileSorter._apply_sorting_rules`, with trace fields:
the first matched rule (if any), the names of the rules that were evaluated,
and the total extractor invocations. -/
structure ApplyResult where
  sorted : Bool
  fs : FS
  db : Ledger
  matchedRule : Option SortingRule
  triedRules : List String
  extractCalls : Nat
deriving DecidableEq, Repr

/-- `FileSorter._apply_sorting_rules`: evaluate rules in list order, stop at
the first match and return that rule's move outcome (success or failure);
a non-matching rule falls through to the next one. -/
def apply_sorting_rules (env : Env) (fs : FS) (db : Ledger)
    (file_path : FPath) (file_hash : String) :
    List SortingRule → ApplyResult
  | [] => ⟨false, fs, db, none, [], 0⟩
  | rule :: rest =>
    let m := match_rule env fs file_path rule
    if m.matched then
      let mv := move_file_with_rule env fs db file_path file_hash rule
      ⟨mv.ok, mv.fs, mv.db, some rule, [rule.name], m.extractCalls⟩
    else
      let r := apply_sorting_rules env fs db file_path file_hash rest
      ⟨r.sorted, r.fs, r.db, r.matchedRule, rule.name :: r.triedRules,
        m.extractCalls + r.extractCalls⟩

/-- Result of one `FileSorter.sort_file` run, with trace fields:
`dupDetected` — the duplicate check answered yes;
`duplicateHandled` — the duplicate divert succeeded;
`ruleMatchingRun` — step 4 (rule matching) was reached;
`recordedUnmatched` — step 5 inserted a ledger row. -/
structure SortResult where
  fs : FS
  db : Ledger
  dupDetected : Bool
  duplicateHandled : Bool
  ruleMatchingRun : Bool
  matchedRule : Option SortingRule
  triedRules : List String
  sortedOk : Bool
  recordedUnmatched : Bool
  extractCalls : Nat
deriving DecidableEq, Repr

/-- Step 5 of `FileSorter.sort_file` folded over the step-4 outcome `a`:
when `_apply_sorting_rules` returned true the file counts as sorted,
otherwise `_handle_unmatched_file` records the digest against the file's
current (original) path. -/
def finishA (dup : Bool) (file_path : FPath) (file_hash : String)
    (a : ApplyResult) : SortResult :=
  if a.sorted then
    { fs := a.fs, db := a.db, dupDetected := dup, duplicateHandled := false
    , ruleMatchingRun := true, matchedRule := a.matchedRule
    , triedRules := a.triedRules, sortedOk := true
    , recordedUnmatched := false, extractCalls := a.extractCalls }
  else
    { fs := a.fs, db := (add_file_record a.db a.fs file_hash file_path).2
    , dupDetected := dup, duplicateHandled := false
    , ruleMatchingRun := true, matchedRule := a.matchedRule
    , triedRules := a.triedRules, sortedOk := false
    , recordedUnmatched := (add_file_record a.db a.fs file_hash file_path).1
    , extractCalls := a.extractCalls }

/-- Steps 4 and 5 of `FileSorter.sort_file`. -/
def sortSteps45 (env : Env) (cfg : Config) (fs : FS) (db : Ledger)
    (file_path : FPath) (file_hash : String) (dup : Bool) : SortResult :=
  finishA dup file_path file_hash
    (apply_sorting_rules env fs db file_path file_hash cfg.rules)

/-- `FileSorter.sort_file`: stability gate, fingerprint, duplicate check and
divert, rule matching, unmatched-file recording.  A failed divert
(`handle_duplicate` returning false) falls through to rule matching, exactly
as the Python does.  Statistics counters and logging are not modelled. -/
def sort_file (env : Env) (cfg : Config) (fs : FS) (db : Ledger)
    (file_path : FPath) : SortResult :=
  let base : SortResult :=
    { fs := fs, db := db, dupDetected := false, duplicateHandled := false
    , ruleMatchingRun := false, matchedRule := none, triedRules := []
    , sortedOk := false, recordedUnmatched := false, extractCalls := 0 }
  if ¬ pathExists fs file_path then base
  else if ¬ env.stable file_path then base
  else
    match get_file_hash fs file_path with
    | none => base
    | some file_hash =>
      if is_duplicate db file_hash then
        let hd := handle_duplicate env cfg fs file_path
        if hd.1 then
          { base with fs := hd.2, dupDetected := true, duplicateHandled := true }
        else
          sortSteps45 env cfg hd.2 db file_path file_hash true
      else
        sortSteps45 env cfg fs db file_path file_hash false

/-- Number of ledger rows carrying digest `k`. -/
def countFor (db : Ledger) (k : String) : Nat :=
  (db.filter (fun r => r.sha256_hash = k)).length

/-! ### Basic facts about the string helpers and the digest -/

theorem pstrip_sha256 (c : String) : pstrip (sha256 c) = sha256 c := by
  simp [pstrip, sha256, stripChars, isSpaceChar, List.dropWhile_cons]

theorem sha256_ne_blank (c : String) : pstrip (sha256 c) ≠ "" := by
  rw [pstrip_sha256]
  intro h
  have := congrArg String.data h
  simp [sha256] at this

theorem string_length_eq_zero_iff (s : String) : s.length = 0 ↔ s = "" := by
  cases s with
  | mk l => simp [String.length, String.ext_iff]

/-! ### Ledger lemmas -/

theorem add_file_record_of_present (db : Ledger) (fs : FS) (h : String)
    (p : FPath) (hp : hashPresent db h = true) :
    add_file_record db fs h p = (false, db) := by
  simp [add_file_record, hp]

theorem add_file_record_of_absent (db : Ledger) (fs : FS) (h : String)
    (p : FPath) (hp : hashPresent db h = false) (hb : pstrip h ≠ "") :
    add_file_record db fs h p =
      (true, db ++ [{ sha256_hash := pstrip h, original_path := p
                    , file_size := (findFile fs p).map (fun f => f.content.length)
                    , file_name := p.name }]) := by
  simp [add_file_record, hp, hb]

theorem countFor_append_one (db : Ledger) (r : FileRecord) (k : String)
    (hk : r.sha256_hash = k) :
    countFor (db ++ [r]) k = countFor db k + 1 := by
  simp [countFor, List.filter_append, List.filter, hk]

theorem countFor_eq_zero_iff (db : Ledger) (k : String) :
    countFor db k = 0 ↔ ∀ r ∈ db, r.sha256_hash ≠ k := by
  simp [countFor, List.length_eq_zero, List.filter_eq_nil_iff]

theorem hashPresent_eq_false_of_countFor_zero (db : Ledger) (c : String)
    (h0 : countFor db (sha256 c) = 0) : hashPresent db (sha256 c) = false := by
  rw [hashPresent, pstrip_sha256]
  rw [countFor_eq_zero_iff] at h0
  simp only [List.any_eq_false, decide_eq_true_eq]
  exact h0

theorem hashPresent_eq_true_of_countFor_pos (db : Ledger) (c : String)
    (h1 : 0 < countFor db (sha256 c)) : hashPresent db (sha256 c) = true := by
  rw [hashPresent, pstrip_sha256]
  unfold countFor at h1
  rcases List.exists_mem_of_length_pos h1 with ⟨r, hr⟩
  have hmem := List.mem_filter.mp hr
  simp only [List.any_eq_true, decide_eq_true_eq]
  exact ⟨r, hmem.1, by simpa using hmem.2⟩

theorem is_duplicate_sha256_eq (db : Ledger) (c : String) :
    is_duplicate db (sha256 c) = hashPresent db (sha256 c) := by
  simp [is_duplicate, sha256_ne_blank]

/-! ### Lemmas about the rule application pipeline -/

theorem move_db_of_present (env : Env) (fs : FS) (db : Ledger) (p : FPath)
    (h : String) (rule : SortingRule) (hp : hashPresent db h = true) :
    (move_file_with_rule env fs db p h rule).db = db := by
  unfold move_file_with_rule
  cases hg : get_unique_path fs (ruleDest rule p) 1000 with
  | error e => rfl
  | ok dest =>
    by_cases hm : env.moveOk p dest = true
    · simp [hm, add_file_record_of_present _ _ _ _ hp]
    · simp [hm]

theorem move_of_not_ok (env : Env) (fs : FS) (db : Ledger) (p : FPath)
    (h : String) (rule : SortingRule)
    (hm : (move_file_with_rule env fs db p h rule).ok = false) :
    move_file_with_rule env fs db p h rule = ⟨false, fs, db⟩ := by
  unfold move_file_with_rule at *
  cases hg : get_unique_path fs (ruleDest rule p) 1000 with
  | error e => rfl
  | ok dest =>
    rw [hg] at hm
    by_cases hmv : env.moveOk p dest = true
    · simp [hmv] at hm
    · simp [hmv]

theorem move_of_ok (env : Env) (fs : FS) (db : Ledger) (p : FPath)
    (h : String) (rule : SortingRule)
    (hm : (move_file_with_rule env fs db p h rule).ok = true) :
    ∃ dest, get_unique_path fs (ruleDest rule p) 1000 = .ok dest ∧
      env.moveOk p dest = true ∧
      move_file_with_rule env fs db p h rule =
        ⟨true, moveFile fs p dest,
          (add_file_record db (moveFile fs p dest) h dest).2⟩ := by
  unfold move_file_with_rule at *
  cases hg : get_unique_path fs (ruleDest rule p) 1000 with
  | error e => rw [hg] at hm; simp at hm
  | ok dest =>
    rw [hg] at hm
    by_cases hmv : env.moveOk p dest = true
    · exact ⟨dest, rfl, hmv, by simp [hmv]⟩
    · simp [hmv] at hm

theorem apply_of_not_sorted (env : Env) (fs : FS) (db : Ledger) (p : FPath)
    (h : String) (rules : List SortingRule)
    (ha : (apply_sorting_rules env fs db p h rules).sorted = false) :
    (apply_sorting_rules env fs db p h rules).fs = fs ∧
      (apply_sorting_rules env fs db p h rules).db = db := by
  induction rules with
  | nil => exact ⟨rfl, rfl⟩
  | cons rule rest ih =>
    simp only [apply_sorting_rules] at *
    by_cases hm : (match_rule env fs p rule).matched = true
    · simp only [hm, if_true] at *
      have := move_of_not_ok env fs db p h rule ha
      rw [this]
      exact ⟨rfl, rfl⟩
    · simp only [Bool.not_eq_true] at hm
      simp only [hm, Bool.false_eq_true, if_false] at *
      exact ih ha

theorem apply_of_sorted (env : Env) (fs : FS) (db : Ledger) (p : FPath)
    (h : String) (rules : List SortingRule)
    (ha : (apply_sorting_rules env fs db p h rules).sorted = true) :
    ∃ dest,
      (apply_sorting_rules env fs db p h rules).fs = moveFile fs p dest ∧
      (apply_sorting_rules env fs db p h rules).db =
        (add_file_record db (moveFile fs p dest) h dest).2 := by
  induction rules with
  | nil => simp [apply_sorting_rules] at ha
  | cons rule rest ih =>
    simp only [apply_sorting_rules] at *
    by_cases hm : (match_rule env fs p rule).matched = true
    · simp only [hm, if_true] at *
      rcases move_of_ok env fs db p h rule ha with ⟨dest, _, _, heq⟩
      exact ⟨dest, by rw [heq], by rw [heq]⟩
    · simp only [Bool.not_eq_true] at hm
      simp only [hm, Bool.false_eq_true, if_false] at *
      exact ih ha

theorem apply_db_of_present (env : Env) (fs : FS) (db : Ledger) (p : FPath)
    (h : String) (rules : List SortingRule) (hp : hashPresent db h = true) :
    (apply_sorting_rules env fs db p h rules).db = db := by
  by_cases hs : (apply_sorting_rules env fs db p h rules).sorted = true
  · rcases apply_of_sorted env fs db p h rules hs with ⟨dest, _, hdb⟩
    rw [hdb, add_file_record_of_present _ _ _ _ hp]
  · simp only [Bool.not_eq_true] at hs
    exact (apply_of_not_sorted env fs db p h rules hs).2

/-! ### Lemmas about steps 4–5 of `sort_file` -/

theorem steps45_dupFlag (env : Env) (cfg : Config) (fs : FS) (db : Ledger)
    (p : FPath) (h : String) (dup : Bool) :
    (sortSteps45 env cfg fs db p h dup).dupDetected = dup := by
  unfold sortSteps45 finishA
  split <;> rfl

theorem steps45_db_of_present (env : Env) (cfg : Config) (fs : FS)
    (db : Ledger) (p : FPath) (h : String) (dup : Bool)
    (hp : hashPresent db h = true) :
    (sortSteps45 env cfg fs db p h dup).db = db := by
  unfold sortSteps45 finishA
  have hdb := apply_db_of_present env fs db p h cfg.rules hp
  split
  · exact hdb
  · simp only
    rw [hdb, add_file_record_of_present _ _ _ _ hp]

theorem steps45_count_of_absent (env : Env) (cfg : Config) (fs : FS)
    (db : Ledger) (p : FPath) (c : String) (dup : Bool)
    (hp : hashPresent db (sha256 c) = false) :
    countFor (sortSteps45 env cfg fs db p (sha256 c) dup).db (sha256 c) =
      countFor db (sha256 c) + 1 := by
  unfold sortSteps45 finishA
  split
  case isTrue hs =>
    rcases apply_of_sorted env fs db p (sha256 c) cfg.rules hs with ⟨dest, _, hdb⟩
    simp only
    rw [hdb, add_file_record_of_absent _ _ _ _ hp (sha256_ne_blank c)]
    exact countFor_append_one _ _ _ (pstrip_sha256 c)
  case isFalse hs =>
    simp only [Bool.not_eq_true] at hs
    have hdb := (apply_of_not_sorted env fs db p (sha256 c) cfg.rules hs).2
    simp only
    rw [hdb, add_file_record_of_absent _ _ _ _ hp (sha256_ne_blank c)]
    exact countFor_append_one _ _ _ (pstrip_sha256 c)

/-! ### Lemmas about `sort_file` -/

theorem pathExists_of_find (fs : FS) (p : FPath) (f : FSFile)
    (hfind : findFile fs p = some f) : pathExists fs p = true := by
  simp [pathExists, hfind]

theorem get_file_hash_of_find (fs : FS) (p : FPath) (f : FSFile)
    (hfind : findFile fs p = some f) (hc : f.content ≠ "") :
    get_file_hash fs p = some (sha256 f.content) := by
  simp [get_file_hash, hfind, string_length_eq_zero_iff, hc]

theorem handle_duplicate_fs_of_false (env : Env) (cfg : Config) (fs : FS)
    (p : FPath) (hh : (handle_duplicate env cfg fs p).1 = false) :
    (handle_duplicate env cfg fs p).2 = fs := by
  unfold handle_duplicate at *
  cases hg : get_unique_path fs (dupDest cfg p) 1000 with
  | error e => rfl
  | ok dest =>
    rw [hg] at hh
    by_cases hm : env.moveOk p dest = true
    · simp [hm] at hh
    · simp [hm]

theorem sort_file_of_new (env : Env) (cfg : Config) (fs : FS) (db : Ledger)
    (p : FPath) (f : FSFile) (hfind : findFile fs p = some f)
    (hst : env.stable p = true) (hc : f.content ≠ "")
    (hdup : is_duplicate db (sha256 f.content) = false) :
    sort_file env cfg fs db p =
      sortSteps45 env cfg fs db p (sha256 f.content) false := by
  unfold sort_file
  rw [pathExists_of_find fs p f hfind]
  simp only [hst, get_file_hash_of_find fs p f hfind hc, hdup,
    Bool.not_eq_true, ite_false, Bool.false_eq_true, not_true_eq_false]

theorem sort_file_of_dup (env : Env) (cfg : Config) (fs : FS) (db : Ledger)
    (p : FPath) (f : FSFile) (hfind : findFile fs p = some f)
    (hst : env.stable p = true) (hc : f.content ≠ "")
    (hdup : is_duplicate db (sha256 f.content) = true) :
    sort_file env cfg fs db p =
      (if (handle_duplicate env cfg fs p).1 then
        { fs := (handle_duplicate env cfg fs p).2, db := db
        , dupDetected := true, duplicateHandled := true
        , ruleMatchingRun := false, matchedRule := none, triedRules := []
        , sortedOk := false, recordedUnmatched := false, extractCalls := 0 }
      else
        sortSteps45 env cfg (handle_duplicate env cfg fs p).2 db p
          (sha256 f.content) true) := by
  unfold sort_file
  rw [pathExists_of_find fs p f hfind]
  simp only [hst, get_file_hash_of_find fs p f hfind hc, hdup,
    Bool.not_eq_true, ite_false, Bool.false_eq_true, not_true_eq_false]
  simp

theorem sort_file_dup_invariants (env : Env) (cfg : Config) (fs : FS)
    (db : Ledger) (p : FPath) (f : FSFile) (hfind : findFile fs p = some f)
    (hst : env.stable p = true) (hc : f.content ≠ "")
    (hdup : is_duplicate db (sha256 f.content) = true) :
    (sort_file env cfg fs db p).dupDetected = true ∧
      (sort_file env cfg fs db p).db = db := by
  rw [sort_file_of_dup env cfg fs db p f hfind hst hc hdup]
  have hpres : hashPresent db (sha256 f.content) = true := by
    rw [← is_duplicate_sha256_eq]; exact hdup
  split
  · exact ⟨rfl, rfl⟩
  · exact ⟨steps45_dupFlag _ _ _ _ _ _ _,
      steps45_db_of_present _ _ _ _ _ _ _ hpres⟩

/-! ### Claim C1 -/

/-- C1: the ledger holds at most one record per digest: inserting a record
whose digest is already present stores nothing and returns false (no error);
consequently, feeding the same file content twice — under any filenames,
configurations and environments — yields exactly one ledger entry for that
digest, and the second occurrence is detected and handled as a duplicate
with no insertion (the ledger is unchanged by the second run). -/
theorem c1_digest_unique_insert_if_absent :
    (∀ (db : Ledger) (fs : FS) (h : String) (p : FPath),
      hashPresent db h = true → add_file_record db fs h p = (false, db)) ∧
    (∀ (env : Env) (cfg : Config) (fs : FS) (db : Ledger) (p : FPath)
        (f : FSFile),
      findFile fs p = some f → env.stable p = true → f.content ≠ "" →
      countFor db (sha256 f.content) = 0 →
      countFor (sort_file env cfg fs db p).db (sha256 f.content) = 1 ∧
      (∀ (env2 : Env) (cfg2 : Config) (fs2 : FS) (p2 : FPath) (f2 : FSFile),
        findFile fs2 p2 = some f2 → env2.stable p2 = true →
        f2.content = f.content →
        (sort_file env2 cfg2 fs2 (sort_file env cfg fs db p).db p2).dupDetected
            = true ∧
        (sort_file env2 cfg2 fs2 (sort_file env cfg fs db p).db p2).db =
          (sort_file env cfg fs db p).db)) := by
  constructor
  · exact add_file_record_of_present
  · intro env cfg fs db p f hfind hst hc h0
    have hpres : hashPresent db (sha256 f.content) = false :=
      hashPresent_eq_false_of_countFor_zero db _ h0
    have hdup : is_duplicate db (sha256 f.content) = false := by
      rw [is_duplicate_sha256_eq]; exact hpres
    have hcount :
        countFor (sort_file env cfg fs db p).db (sha256 f.content) = 1 := by
      rw [sort_file_of_new env cfg fs db p f hfind hst hc hdup,
        steps45_count_of_absent env cfg fs db p f.content false hpres, h0]
    refine ⟨hcount, ?_⟩
    intro env2 cfg2 fs2 p2 f2 hfind2 hst2 hc2
    have hc2ne : f2.content ≠ "" := by rw [hc2]; exact hc
    have hpres1 :
        hashPresent (sort_file env cfg fs db p).db (sha256 f2.content)
          = true := by
      rw [hc2]
      exact hashPresent_eq_true_of_countFor_pos _ _ (by rw [hcount]; exact one_pos)
    have hdup1 :
        is_duplicate (sort_file env cfg fs db p).db (sha256 f2.content)
          = true := by
      rw [is_duplicate_sha256_eq]; exact hpres1
    exact sort_file_dup_invariants env2 cfg2 fs2 _ p2 f2 hfind2 hst2 hc2ne hdup1

/-- Environment in which every move succeeds, extraction always fails and
every file is stable. -/
def envAll : Env := ⟨fun _ _ => true, fun _ => none, fun _ => true⟩

/-- A sample source file path `src/doc.pdf`. -/
def pDoc : FPath := ⟨"src", "doc", ".pdf"⟩

/-- A sample file with content "x" at `src/doc.pdf`. -/
def fDoc : FSFile := ⟨pDoc, "x"⟩

/-- A second path `src/copy.pdf` for a byte-identical copy. -/
def pCopy : FPath := ⟨"src", "copy", ".pdf"⟩

/-- The byte-identical copy at `src/copy.pdf`. -/
def fCopy : FSFile := ⟨pCopy, "x"⟩

/-- A configuration with no rules, duplicate folder `dup`. -/
def cfgBasic : Config := ⟨"src", "dup", []⟩

/-- A one-row ledger already holding the digest of "x". -/
def dbX : Ledger := [{ sha256_hash := sha256 "x", original_path := pDoc
                     , file_size := some 1, file_name := "doc.pdf" }]

theorem c1_witness :
    add_file_record dbX [] (sha256 "x") pCopy = (false, dbX) ∧
    countFor (sort_file envAll cfgBasic [fDoc] [] pDoc).db (sha256 "x") = 1 ∧
    (sort_file envAll cfgBasic [fCopy]
        (sort_file envAll cfgBasic [fDoc] [] pDoc).db pCopy).dupDetected
      = true :=
  ⟨c1_digest_unique_insert_if_absent.1 dbX [] (sha256 "x") pCopy (by decide),
   (c1_digest_unique_insert_if_absent.2 envAll cfgBasic [fDoc] [] pDoc fDoc
      rfl rfl (by decide) (by decide)).1,
   ((c1_digest_unique_insert_if_absent.2 envAll cfgBasic [fDoc] [] pDoc fDoc
      rfl rfl (by decide) (by decide)).2 envAll cfgBasic [fCopy] pCopy fCopy
      rfl rfl rfl).1⟩

/-! ### Lemmas about `get_unique_path` -/

theorem samePath_refl (p : FPath) : p.samePath p = true := by
  simp [FPath.samePath]

theorem gupFrom_ok_shape (fs : FS) (p : FPath) :
    ∀ (fuel counter : Nat) (q : FPath), gupFrom fs p counter fuel = .ok q →
      ∃ c, counter ≤ c ∧ c < counter + fuel ∧ q = candidateAt p c ∧
        pathExists fs q = false ∧
        ∀ c', counter ≤ c' → c' < c → pathExists fs (candidateAt p c') = true := by
  intro fuel
  induction fuel with
  | zero => intro counter q h; simp [gupFrom] at h
  | succ n ih =>
    intro counter q h
    unfold gupFrom at h
    by_cases hex : pathExists fs (candidateAt p counter) = true
    · rw [if_pos hex] at h
      rcases ih (counter + 1) q h with ⟨c, hc1, hc2, hc3, hc4, hc5⟩
      refine ⟨c, by omega, by omega, hc3, hc4, ?_⟩
      intro c' h1 h2
      by_cases hcc : c' = counter
      · rw [hcc]; exact hex
      · exact hc5 c' (by omega) h2
    · rw [if_neg hex] at h
      cases h
      exact ⟨counter, le_refl _, by omega, rfl, by
        simpa using hex, by intro c' h1 h2; omega⟩

theorem gupFrom_error_of_all (fs : FS) (p : FPath) :
    ∀ (fuel counter : Nat),
      (∀ c, counter ≤ c → c < counter + fuel →
        pathExists fs (candidateAt p c) = true) →
      gupFrom fs p counter fuel =
        .error "Could not generate unique path after max attempts" := by
  intro fuel
  induction fuel with
  | zero => intro counter _; rfl
  | succ n ih =>
    intro counter hall
    unfold gupFrom
    rw [if_pos (hall counter (le_refl _) (by omega))]
    exact ih (counter + 1) (fun c h1 h2 => hall c (by omega) (by omega))

theorem gup_of_free (fs : FS) (p : FPath) (m : Nat)
    (h : pathExists fs p = false) : get_unique_path fs p m = .ok p := by
  simp [get_unique_path, h]

theorem gup_ok_shape (fs : FS) (p : FPath) (m : Nat) (q : FPath)
    (h : get_unique_path fs p m = .ok q) :
    q.dir = p.dir ∧ q.suffix = p.suffix ∧ pathExists fs q = false ∧
      (q = p ∨ ∃ c, 1 ≤ c ∧ c < m ∧ q = candidateAt p c ∧
        pathExists fs p = true ∧
        ∀ c', 1 ≤ c' → c' < c → pathExists fs (candidateAt p c') = true) := by
  unfold get_unique_path at h
  by_cases hex : pathExists fs p = true
  · rw [if_pos hex] at h
    rcases gupFrom_ok_shape fs p (m - 1) 1 q h with ⟨c, hc1, hc2, hc3, hc4, hc5⟩
    refine ⟨by rw [hc3]; rfl, by rw [hc3]; rfl, hc4,
      Or.inr ⟨c, hc1, by omega, hc3, hex, hc5⟩⟩
  · rw [if_neg hex] at h
    cases h
    exact ⟨rfl, rfl, by simpa using hex, Or.inl rfl⟩

theorem gup_error_of_all (fs : FS) (p : FPath) (m : Nat)
    (h1 : pathExists fs p = true)
    (h2 : ∀ c, 1 ≤ c → c < m → pathExists fs (candidateAt p c) = true) :
    get_unique_path fs p m =
      .error "Could not generate unique path after max attempts" := by
  unfold get_unique_path
  rw [if_pos h1]
  exact gupFrom_error_of_all fs p (m - 1) 1
    (fun c hc1 hc2 => h2 c hc1 (by omega))

/-! ### Claim C8 -/

/-- The destination `dest/report.pdf`. -/
def pReport : FPath := ⟨"dest", "report", ".pdf"⟩

/-- A destination folder already holding `report.pdf` and `report_1.pdf`. -/
def fsReport : FS :=
  [⟨⟨"dest", "report", ".pdf"⟩, "a"⟩, ⟨⟨"dest", "report_1", ".pdf"⟩, "b"⟩]

/-- C8: collision-free naming tries `name`, then `name_1`, `name_2`, …,
preserving the original suffix and returning the first candidate that does
not exist (`report.pdf` against existing `report.pdf`, `report_1.pdf` gives
`report_2.pdf`); when the destination and every numbered candidate below the
attempt bound exist it fails with the naming-exhaustion error, and a caller
(`_move_file_with_rule`, `handle_duplicate`) then leaves the filesystem and
ledger unchanged — the source file is not moved. -/
theorem c8_unique_naming :
    get_unique_path fsReport pReport 1000 = .ok ⟨"dest", "report_2", ".pdf"⟩ ∧
    (∀ (fs : FS) (p : FPath) (m : Nat),
      pathExists fs p = false → get_unique_path fs p m = .ok p) ∧
    (∀ (fs : FS) (p : FPath) (m : Nat) (q : FPath),
      get_unique_path fs p m = .ok q →
      q.dir = p.dir ∧ q.suffix = p.suffix ∧ pathExists fs q = false ∧
        (q = p ∨ ∃ c, 1 ≤ c ∧ c < m ∧ q = candidateAt p c ∧
          pathExists fs p = true ∧
          ∀ c', 1 ≤ c' → c' < c → pathExists fs (candidateAt p c') = true)) ∧
    (∀ (fs : FS) (p : FPath) (m : Nat),
      pathExists fs p = true →
      (∀ c, 1 ≤ c → c < m → pathExists fs (candidateAt p c) = true) →
      get_unique_path fs p m =
        .error "Could not generate unique path after max attempts") ∧
    (∀ (env : Env) (fs : FS) (db : Ledger) (p : FPath) (h : String)
        (rule : SortingRule) (e : String),
      get_unique_path fs (ruleDest rule p) 1000 = .error e →
      move_file_with_rule env fs db p h rule = ⟨false, fs, db⟩) ∧
    (∀ (env : Env) (cfg : Config) (fs : FS) (p : FPath) (e : String),
      get_unique_path fs (dupDest cfg p) 1000 = .error e →
      handle_duplicate env cfg fs p = (false, fs)) := by
  refine ⟨by rfl, gup_of_free, gup_ok_shape, gup_error_of_all, ?_, ?_⟩
  · intro env fs db p h rule e hg
    unfold move_file_with_rule
    rw [hg]
  · intro env cfg fs p e hg
    unfold handle_duplicate
    rw [hg]

/-- Source path of the file to be relocated in the exhaustion scenario. -/
def pBigSrc : FPath := ⟨"src", "big", ".pdf"⟩

/-- The crowded destination entry `destX/big.pdf`. -/
def pBig : FPath := ⟨"destX", "big", ".pdf"⟩

/-- A rule whose destination is the crowded folder `destX`. -/
def ruleBig : SortingRule :=
  { name := "Big", dest := "destX", extensions := some [".pdf"], priority := 1 }

/-- A configuration whose duplicate folder is the crowded folder `destX`. -/
def cfgBig : Config := ⟨"src", "destX", [ruleBig]⟩

/-- A filesystem where `destX/big.pdf` and all 999 numbered candidates
`destX/big_1.pdf` … `destX/big_999.pdf` already exist. -/
def bigFs : FS :=
  ⟨pBig, "x"⟩ :: (List.range' 1 999).map (fun c => ⟨candidateAt pBig c, "x"⟩)

theorem bigFs_exhausted :
    get_unique_path bigFs pBig 1000 =
      .error "Could not generate unique path after max attempts" := by
  apply gup_error_of_all
  · decide
  · intro c h1 h2
    unfold pathExists findFile
    rw [List.find?_isSome]
    refine ⟨⟨candidateAt pBig c, "x"⟩, ?_, ?_⟩
    · exact List.mem_cons_of_mem _
        (List.mem_map.mpr ⟨c, List.mem_range'_1.mpr ⟨h1, by omega⟩, rfl⟩)
    · exact samePath_refl _

theorem c8_witness :
    get_unique_path ([] : FS) pDoc 5 = .ok pDoc ∧
    ((⟨"dest", "report_2", ".pdf"⟩ : FPath).suffix = pReport.suffix ∧
      pathExists fsReport ⟨"dest", "report_2", ".pdf"⟩ = false) ∧
    get_unique_path fsReport pReport 2 =
      .error "Could not generate unique path after max attempts" ∧
    move_file_with_rule envAll bigFs dbX pBigSrc (sha256 "x") ruleBig =
      ⟨false, bigFs, dbX⟩ ∧
    handle_duplicate envAll cfgBig bigFs pBigSrc = (false, bigFs) := by
  refine ⟨c8_unique_naming.2.1 [] pDoc 5 (by decide),
    ?_, ?_, ?_, ?_⟩
  · have hs := c8_unique_naming.2.2.1 fsReport pReport 1000
      ⟨"dest", "report_2", ".pdf"⟩ (by rfl)
    exact ⟨hs.2.1, hs.2.2.1⟩
  · exact c8_unique_naming.2.2.2.1 fsReport pReport 2 (by decide)
      (by intro c h1 h2
          have hc : c = 1 := by omega
          rw [hc]; decide)
  · exact c8_unique_naming.2.2.2.2.1 envAll bigFs dbX pBigSrc (sha256 "x")
      ruleBig _ bigFs_exhausted
  · exact c8_unique_naming.2.2.2.2.2 envAll cfgBig bigFs pBigSrc _
      bigFs_exhausted

/-! ### Claim C2 -/

/-- C2 (amended): for every file whose digest is already present at
duplicate-check time, the ledger is unchanged (no record created or updated)
and the duplicate is detected; and whenever the relocation into the duplicate
folder succeeds (a collision-free name was found and the move succeeded), the
file is moved there and rule matching is never run for it.  (The
unconditional version of "never rule-matched" is refuted by
`c2_counterexample`: when the divert move fails the code falls through to
rule matching.) -/
theorem c2_diverted_duplicate :
    ∀ (env : Env) (cfg : Config) (fs : FS) (db : Ledger) (p : FPath)
      (f : FSFile),
      findFile fs p = some f → env.stable p = true → f.content ≠ "" →
      is_duplicate db (sha256 f.content) = true →
      (sort_file env cfg fs db p).db = db ∧
      (sort_file env cfg fs db p).dupDetected = true ∧
      (∀ q, get_unique_path fs (dupDest cfg p) 1000 = .ok q →
        env.moveOk p q = true →
        (sort_file env cfg fs db p).fs = moveFile fs p q ∧
        (sort_file env cfg fs db p).ruleMatchingRun = false ∧
        (sort_file env cfg fs db p).triedRules = [] ∧
        (sort_file env cfg fs db p).matchedRule = none ∧
        q.dir = cfg.duplicate_folder ∧ pathExists fs q = false) := by
  intro env cfg fs db p f hfind hst hc hdup
  have hinv := sort_file_dup_invariants env cfg fs db p f hfind hst hc hdup
  refine ⟨hinv.2, hinv.1, ?_⟩
  intro q hq hmv
  have hhd : handle_duplicate env cfg fs p = (true, moveFile fs p q) := by
    unfold handle_duplicate
    rw [hq]
    simp [hmv]
  have hshape := gup_ok_shape fs (dupDest cfg p) 1000 q hq
  rw [sort_file_of_dup env cfg fs db p f hfind hst hc hdup, hhd]
  exact ⟨rfl, rfl, rfl, rfl, hshape.1, hshape.2.2.1⟩

/-- Environment in which moves into the directory `dup` fail and all other
moves succeed; extraction always fails; every file is stable. -/
def envC2 : Env :=
  ⟨fun _ dst => decide (dst.dir ≠ "dup"), fun _ => none, fun _ => true⟩

/-- A rule sending `.pdf` files to the folder `pdfs`. -/
def rulePdf : SortingRule :=
  { name := "PDF", dest := "pdfs", extensions := some [".pdf"], priority := 1 }

/-- Configuration: source `src`, duplicate folder `dup`, one `.pdf` rule. -/
def cfgPdf : Config := ⟨"src", "dup", [rulePdf]⟩

/-- C2 counterexample: a file whose digest is already in the ledger, but
whose relocation into the duplicate folder fails, IS subsequently
rule-matched and sorted into a rule destination — refuting the claim that a
file with a present digest is never rule-matched.  (The ledger still gains
nothing.) -/
theorem c2_counterexample :
    (sort_file envC2 cfgPdf [fDoc] dbX pDoc).dupDetected = true ∧
    (sort_file envC2 cfgPdf [fDoc] dbX pDoc).duplicateHandled = false ∧
    (sort_file envC2 cfgPdf [fDoc] dbX pDoc).ruleMatchingRun = true ∧
    (sort_file envC2 cfgPdf [fDoc] dbX pDoc).matchedRule = some rulePdf ∧
    (sort_file envC2 cfgPdf [fDoc] dbX pDoc).sortedOk = true ∧
    (sort_file envC2 cfgPdf [fDoc] dbX pDoc).fs =
      [⟨⟨"pdfs", "doc", ".pdf"⟩, "x"⟩] ∧
    (sort_file envC2 cfgPdf [fDoc] dbX pDoc).db = dbX :=
  ⟨rfl, rfl, rfl, rfl, rfl, rfl, rfl⟩

theorem c2_witness :
    (sort_file envAll cfgPdf [fDoc] dbX pDoc).db = dbX ∧
    (sort_file envAll cfgPdf [fDoc] dbX pDoc).dupDetected = true ∧
    (sort_file envAll cfgPdf [fDoc] dbX pDoc).fs =
      moveFile [fDoc] pDoc ⟨"dup", "doc", ".pdf"⟩ ∧
    (sort_file envAll cfgPdf [fDoc] dbX pDoc).triedRules = [] := by
  have h := c2_diverted_duplicate envAll cfgPdf [fDoc] dbX pDoc fDoc rfl rfl
    (by decide) (by decide)
  have h3 := h.2.2 ⟨"dup", "doc", ".pdf"⟩ (by rfl) rfl
  exact ⟨h.1, h.2.1, h3.1, h3.2.2.1⟩

/-! ### Claim C5 -/

/-- Environment in which every move fails. -/
def envNoMove : Env := ⟨fun _ _ => false, fun _ => none, fun _ => true⟩

/-- C5 evaluation at the failing input: for the file `src/doc.pdf` (content
"x", digest new) the `.pdf` rule matches but the relocation fails; contrary
to the claim (and to §7 of the spec), the pipeline does not abort for this
file: it falls through to `_handle_unmatched_file`, which inserts a ledger
record for the digest at the original path. -/
theorem c5_failed_move_still_records :
    (sort_file envNoMove cfgPdf [fDoc] [] pDoc).matchedRule = some rulePdf ∧
    (sort_file envNoMove cfgPdf [fDoc] [] pDoc).sortedOk = false ∧
    (sort_file envNoMove cfgPdf [fDoc] [] pDoc).fs = [fDoc] ∧
    (sort_file envNoMove cfgPdf [fDoc] [] pDoc).recordedUnmatched = true ∧
    (sort_file envNoMove cfgPdf [fDoc] [] pDoc).db =
      [{ sha256_hash := sha256 "x", original_path := pDoc
       , file_size := some 1, file_name := "doc.pdf" }] :=
  ⟨rfl, rfl, rfl, rfl, rfl⟩

/-! ### Claim C7 -/

theorem apply_of_none_matched (env : Env) (fs : FS) (db : Ledger) (p : FPath)
    (h : String) (rules : List SortingRule)
    (hall : ∀ r ∈ rules, (match_rule env fs p r).matched = false) :
    apply_sorting_rules env fs db p h rules =
      ⟨false, fs, db, none, rules.map (fun r => r.name),
        (apply_sorting_rules env fs db p h rules).extractCalls⟩ := by
  induction rules with
  | nil => rfl
  | cons rule rest ih =>
    have hr := hall rule (List.mem_cons_self _ _)
    have hrest := fun r hmem => hall r (List.mem_cons_of_mem _ hmem)
    simp only [apply_sorting_rules, hr, Bool.false_eq_true, if_false]
    rw [ih hrest]
    rfl

/-- C7: a file with a new digest matching no rule is left at its current
path (the filesystem is unchanged), the ledger gains exactly the record of
its digest against that unchanged original path (with its size and name),
and a byte-identical file arriving later — any path, any configuration — is
then detected as a duplicate. -/
theorem c7_retained_but_remembered :
    ∀ (env : Env) (cfg : Config) (fs : FS) (db : Ledger) (p : FPath)
      (f : FSFile),
      findFile fs p = some f → env.stable p = true → f.content ≠ "" →
      is_duplicate db (sha256 f.content) = false →
      (∀ r ∈ cfg.rules, (match_rule env fs p r).matched = false) →
      (sort_file env cfg fs db p).fs = fs ∧
      (sort_file env cfg fs db p).sortedOk = false ∧
      (sort_file env cfg fs db p).db =
        db ++ [{ sha256_hash := sha256 f.content, original_path := p
               , file_size := some f.content.length, file_name := p.name }] ∧
      (∀ (env2 : Env) (cfg2 : Config) (fs2 : FS) (p2 : FPath) (f2 : FSFile),
        findFile fs2 p2 = some f2 → env2.stable p2 = true →
        f2.content = f.content →
        (sort_file env2 cfg2 fs2 (sort_file env cfg fs db p).db p2).dupDetected
          = true) := by
  intro env cfg fs db p f hfind hst hc hdup hall
  have hpres : hashPresent db (sha256 f.content) = false := by
    rw [← is_duplicate_sha256_eq]; exact hdup
  have happ := apply_of_none_matched env fs db p (sha256 f.content) cfg.rules hall
  have hsf := sort_file_of_new env cfg fs db p f hfind hst hc hdup
  have hadd := add_file_record_of_absent db fs (sha256 f.content) p hpres
    (sha256_ne_blank f.content)
  have hrec :
      sort_file env cfg fs db p =
        { fs := fs
        , db := db ++ [{ sha256_hash := sha256 f.content, original_path := p
                       , file_size := some f.content.length
                       , file_name := p.name }]
        , dupDetected := false, duplicateHandled := false
        , ruleMatchingRun := true, matchedRule := none
        , triedRules := cfg.rules.map (fun r => r.name), sortedOk := false
        , recordedUnmatched := true
        , extractCalls :=
            (apply_sorting_rules env fs db p (sha256 f.content)
              cfg.rules).extractCalls } := by
    rw [hsf]
    unfold sortSteps45
    rw [happ]
    unfold finishA
    simp only [Bool.false_eq_true, if_false]
    rw [hadd]
    simp only [pstrip_sha256, hfind]
    rfl
  refine ⟨by rw [hrec], by rw [hrec], by rw [hrec], ?_⟩
  intro env2 cfg2 fs2 p2 f2 hfind2 hst2 hc2
  have hcount :
      0 < countFor (sort_file env cfg fs db p).db (sha256 f2.content) := by
    rw [hrec, hc2]
    simp only
    rw [countFor_append_one db _ _ rfl]
    omega
  have hdup2 :
      is_duplicate (sort_file env cfg fs db p).db (sha256 f2.content)
        = true := by
    rw [is_duplicate_sha256_eq]
    exact hashPresent_eq_true_of_countFor_pos _ _ hcount
  have hc2ne : f2.content ≠ "" := by rw [hc2]; exact hc
  exact (sort_file_dup_invariants env2 cfg2 fs2 _ p2 f2 hfind2 hst2
    hc2ne hdup2).1

/-- A rule sending `.txt` files to the folder `txts` (does not match
`src/doc.pdf`). -/
def ruleTxt : SortingRule :=
  { name := "TXT", dest := "txts", extensions := some [".txt"], priority := 1 }

/-- Configuration with only the `.txt` rule. -/
def cfgTxt : Config := ⟨"src", "dup", [ruleTxt]⟩

theorem c7_witness :
    (sort_file envAll cfgTxt [fDoc] [] pDoc).fs = [fDoc] ∧
    (sort_file envAll cfgTxt [fDoc] [] pDoc).db =
      [] ++ [{ sha256_hash := sha256 "x", original_path := pDoc
             , file_size := some ("x" : String).length
             , file_name := pDoc.name }] ∧
    (sort_file envAll cfgTxt [fCopy] (sort_file envAll cfgTxt [fDoc] [] pDoc).db
        pCopy).dupDetected = true := by
  have h := c7_retained_but_remembered envAll cfgTxt [fDoc] [] pDoc fDoc rfl rfl
    (by decide) (by decide) (by decide)
  exact ⟨h.1, h.2.2.1, h.2.2.2 envAll cfgTxt [fCopy] pCopy fCopy rfl rfl rfl⟩

/-! ### Lemmas about `match_rule` -/

/-- Every result of `match_rule` is one of eight literal outcomes. -/
theorem match_rule_cases (env : Env) (fs : FS) (p : FPath)
    (rule : SortingRule) :
    match_rule env fs p rule = ⟨false, "file does not exist", 0⟩ ∨
    match_rule env fs p rule = ⟨false, "extension not in rule extensions", 0⟩ ∨
    match_rule env fs p rule =
      ⟨false, "name keywords not found in filename", 0⟩ ∨
    match_rule env fs p rule = ⟨false, "content search requires PDF file", 0⟩ ∨
    match_rule env fs p rule =
      ⟨false, "PDF content extraction failed or returned no text", 1⟩ ∨
    match_rule env fs p rule = ⟨false, "content keywords not found in PDF", 1⟩ ∨
    match_rule env fs p rule = ⟨true, "all criteria matched", 1⟩ ∨
    match_rule env fs p rule = ⟨true, "all criteria matched", 0⟩ := by
  simp only [match_rule]
  repeat' split
  all_goals decide

theorem match_rule_no_extract_of_untruthy (env : Env) (fs : FS) (p : FPath)
    (rule : SortingRule) (hc : truthy rule.content_contains = false) :
    (match_rule env fs p rule).extractCalls = 0 := by
  simp only [match_rule, hc, Bool.false_eq_true, if_false]
  repeat' split
  all_goals rfl

/-- `match_rule` on an existing file, written as the literal decision chain
(for precise `if_pos`/`if_neg` reasoning). -/
theorem match_rule_unfold (env : Env) (fs : FS) (p : FPath)
    (rule : SortingRule) (hpe : pathExists fs p = true) :
    match_rule env fs p rule =
      (if (truthy rule.extensions &&
            !(rule.extensions.getD []).contains (strLower p.suffix)) = true
       then ⟨false, "extension not in rule extensions", 0⟩
       else if (truthy rule.name_contains &&
            !(rule.name_contains.getD []).any
              (fun kw => strHasSub (strLower p.name) kw)) = true
       then ⟨false, "name keywords not found in filename", 0⟩
       else if truthy rule.content_contains = true then
         (if strLower p.suffix ≠ ".pdf" then
            ⟨false, "content search requires PDF file", 0⟩
          else
            match env.extract p with
            | none =>
              ⟨false, "PDF content extraction failed or returned no text", 1⟩
            | some content =>
              if content = "" then
                ⟨false, "PDF content extraction failed or returned no text", 1⟩
              else if contains_keywords content
                  (rule.content_contains.getD []) = true then
                ⟨true, "all criteria matched", 1⟩
              else ⟨false, "content keywords not found in PDF", 1⟩)
       else ⟨true, "all criteria matched", 0⟩) := by
  simp only [match_rule, hpe, not_true, if_false]

/-! ### Claim C3 -/

/-- Rule R1 of the spec's first-match-wins scenario (extensions only). -/
def ruleR1 : SortingRule :=
  { name := "R1", dest := "pdfdest", extensions := some [".pdf"], priority := 1 }

/-- Rule R2 of the scenario (extensions plus name keyword `invoice`). -/
def ruleR2 : SortingRule :=
  { name := "R2", dest := "invdest", extensions := some [".pdf"]
  , name_contains := some ["invoice"], priority := 2 }

/-- The file `src/invoice.pdf`. -/
def pInvoice : FPath := ⟨"src", "invoice", ".pdf"⟩

/-- The file `src/invoice.pdf` with content "inv". -/
def fInvoice : FSFile := ⟨pInvoice, "inv"⟩

/-- C3: rule evaluation stops at the first matching rule — the orchestrator
records it and never evaluates later rules; and in the spec's scenario,
validation derives priority 1 for R1 and 2 for R2, the configuration sort
puts R2 first, both rules match `invoice.pdf`, and the pipeline selects R2,
never touching R1. -/
theorem c3_first_match_wins :
    (∀ (env : Env) (fs : FS) (db : Ledger) (p : FPath) (h : String)
        (rule : SortingRule) (rest : List SortingRule),
      (match_rule env fs p rule).matched = true →
      (apply_sorting_rules env fs db p h (rule :: rest)).matchedRule
          = some rule ∧
      (apply_sorting_rules env fs db p h (rule :: rest)).triedRules
          = [rule.name]) ∧
    mkSortingRule "R1" "pdfdest" (some [".pdf"]) none none = .ok ruleR1 ∧
    mkSortingRule "R2" "invdest" (some [".pdf"]) (some ["invoice"]) none
      = .ok ruleR2 ∧
    ruleR1.priority = 1 ∧ ruleR2.priority = 2 ∧
    sortRules [ruleR1, ruleR2] = [ruleR2, ruleR1] ∧
    (match_rule envAll [fInvoice] pInvoice ruleR1).matched = true ∧
    (match_rule envAll [fInvoice] pInvoice ruleR2).matched = true ∧
    (apply_sorting_rules envAll [fInvoice] [] pInvoice (sha256 "inv")
      (sortRules [ruleR1, ruleR2])).matchedRule = some ruleR2 ∧
    (apply_sorting_rules envAll [fInvoice] [] pInvoice (sha256 "inv")
      (sortRules [ruleR1, ruleR2])).triedRules = ["R2"] := by
  refine ⟨?_, by rfl, by rfl, rfl, rfl, by decide, by decide, by decide,
    by decide, by decide⟩
  intro env fs db p h rule rest hm
  simp [apply_sorting_rules, hm]

theorem c3_witness :
    (apply_sorting_rules envAll [fInvoice] [] pInvoice (sha256 "inv")
      (ruleR2 :: [ruleR1])).matchedRule = some ruleR2 ∧
    (apply_sorting_rules envAll [fInvoice] [] pInvoice (sha256 "inv")
      (ruleR2 :: [ruleR1])).triedRules = [ruleR2.name] :=
  c3_first_match_wins.1 envAll [fInvoice] [] pInvoice (sha256 "inv") ruleR2
    [ruleR1] (by decide)

/-! ### Claim C6 -/

/-- C6: criteria groups are checked in the fixed order extension, filename
keyword, content keyword, rejecting at the first failing group with no later
checks (zero extractor calls, the failing group's reason): (i) an extension
mismatch rejects immediately; (ii) with the extension group passing, a
filename-keyword miss rejects immediately; (iii) a rule requiring content
keywords rejects every non-`.pdf` file without ever invoking the extractor;
(iv) when the earlier groups pass, that rejection carries the format-check
reason. -/
theorem c6_reject_chain_short_circuits :
    ∀ (env : Env) (fs : FS) (p : FPath) (rule : SortingRule),
      pathExists fs p = true →
      ((truthy rule.extensions = true →
        (rule.extensions.getD []).contains (strLower p.suffix) = false →
        match_rule env fs p rule =
          ⟨false, "extension not in rule extensions", 0⟩) ∧
      ((truthy rule.extensions = true →
          (rule.extensions.getD []).contains (strLower p.suffix) = true) →
        truthy rule.name_contains = true →
        (rule.name_contains.getD []).any
          (fun kw => strHasSub (strLower p.name) kw) = false →
        match_rule env fs p rule =
          ⟨false, "name keywords not found in filename", 0⟩) ∧
      (truthy rule.content_contains = true → strLower p.suffix ≠ ".pdf" →
        (match_rule env fs p rule).matched = false ∧
        (match_rule env fs p rule).extractCalls = 0) ∧
      ((truthy rule.extensions = true →
          (rule.extensions.getD []).contains (strLower p.suffix) = true) →
        (truthy rule.name_contains = true →
          (rule.name_contains.getD []).any
            (fun kw => strHasSub (strLower p.name) kw) = true) →
        truthy rule.content_contains = true → strLower p.suffix ≠ ".pdf" →
        match_rule env fs p rule =
          ⟨false, "content search requires PDF file", 0⟩)) := by
  intro env fs p rule hpe
  rw [match_rule_unfold env fs p rule hpe]
  refine ⟨?_, ?_, ?_, ?_⟩
  · intro he hmiss
    rw [if_pos (by rw [he, hmiss]; rfl)]
  · intro hextok hn hmiss
    have h1 : ¬ ((truthy rule.extensions &&
        !(rule.extensions.getD []).contains (strLower p.suffix)) = true) := by
      cases he : truthy rule.extensions with
      | false => simp
      | true =>
        have hmem : strLower p.suffix ∈ rule.extensions.getD [] := by
          simpa using hextok he
        simp [he, hmem]
    rw [if_neg h1, if_pos (by rw [hn, hmiss]; rfl)]
  · intro hc hpdf
    by_cases he : (truthy rule.extensions &&
        !(rule.extensions.getD []).contains (strLower p.suffix)) = true
    · rw [if_pos he]; exact ⟨rfl, rfl⟩
    · rw [if_neg he]
      by_cases hn : (truthy rule.name_contains &&
          !(rule.name_contains.getD []).any
            (fun kw => strHasSub (strLower p.name) kw)) = true
      · rw [if_pos hn]; exact ⟨rfl, rfl⟩
      · rw [if_neg hn, if_pos hc, if_pos hpdf]; exact ⟨rfl, rfl⟩
  · intro hextok hnameok hc hpdf
    have h1 : ¬ ((truthy rule.extensions &&
        !(rule.extensions.getD []).contains (strLower p.suffix)) = true) := by
      cases he : truthy rule.extensions with
      | false => simp
      | true =>
        have hmem : strLower p.suffix ∈ rule.extensions.getD [] := by
          simpa using hextok he
        simp [he, hmem]
    have h2 : ¬ ((truthy rule.name_contains &&
        !(rule.name_contains.getD []).any
          (fun kw => strHasSub (strLower p.name) kw)) = true) := by
      cases hn : truthy rule.name_contains with
      | false => simp
      | true => simp [hnameok hn]
    rw [if_neg h1, if_neg h2, if_pos hc, if_pos hpdf]

/-- A rule requiring the content keyword `invoice` (content group only). -/
def ruleInv : SortingRule :=
  { name := "INV", dest := "inv", content_contains := some ["invoice"]
  , priority := 1 }

/-- The plain-text file `src/notes.txt`. -/
def pNotes : FPath := ⟨"src", "notes", ".txt"⟩

/-- The plain-text file `src/notes.txt` with content "n". -/
def fNotes : FSFile := ⟨pNotes, "n"⟩

theorem c6_witness :
    match_rule envAll [fDoc] pDoc ruleTxt =
      ⟨false, "extension not in rule extensions", 0⟩ ∧
    (match_rule envAll [fNotes] pNotes ruleInv).matched = false ∧
    (match_rule envAll [fNotes] pNotes ruleInv).extractCalls = 0 ∧
    match_rule envAll [fNotes] pNotes ruleInv =
      ⟨false, "content search requires PDF file", 0⟩ := by
  have h1 := c6_reject_chain_short_circuits envAll [fDoc] pDoc ruleTxt
    (by decide)
  have h2 := c6_reject_chain_short_circuits envAll [fNotes] pNotes ruleInv
    (by decide)
  refine ⟨h1.1 (by decide) (by decide), ?_, ?_, ?_⟩
  · exact (h2.2.2.1 (by decide) (by decide)).1
  · exact (h2.2.2.1 (by decide) (by decide)).2
  · exact h2.2.2.2 (by decide) (by decide) (by decide) (by decide)

/-! ### Claim C10 -/

/-- C10: rule matching is total at the pipeline boundary: a non-matching
evaluation always carries a non-empty reason (every outcome is one of the
literal results of `match_rule_cases`, never an escaping error); an
extraction failure in particular becomes the extraction-failure rejection,
not an error; and the orchestrator treats any rejection by going on to the
remaining rules, with the same outcome as if the rejected rule were absent
(only the tried-rules trace grows). -/
theorem c10_matcher_total :
    (∀ (env : Env) (fs : FS) (p : FPath) (rule : SortingRule),
      (match_rule env fs p rule).matched = false →
      (match_rule env fs p rule).reason ≠ "") ∧
    (∀ (env : Env) (fs : FS) (p : FPath) (rule : SortingRule),
      pathExists fs p = true →
      (truthy rule.extensions = true →
        (rule.extensions.getD []).contains (strLower p.suffix) = true) →
      (truthy rule.name_contains = true →
        (rule.name_contains.getD []).any
          (fun kw => strHasSub (strLower p.name) kw) = true) →
      truthy rule.content_contains = true → strLower p.suffix = ".pdf" →
      env.extract p = none →
      match_rule env fs p rule =
        ⟨false, "PDF content extraction failed or returned no text", 1⟩) ∧
    (∀ (env : Env) (fs : FS) (db : Ledger) (p : FPath) (h : String)
        (rule : SortingRule) (rest : List SortingRule),
      (match_rule env fs p rule).matched = false →
      (apply_sorting_rules env fs db p h (rule :: rest)).sorted =
          (apply_sorting_rules env fs db p h rest).sorted ∧
      (apply_sorting_rules env fs db p h (rule :: rest)).fs =
          (apply_sorting_rules env fs db p h rest).fs ∧
      (apply_sorting_rules env fs db p h (rule :: rest)).db =
          (apply_sorting_rules env fs db p h rest).db ∧
      (apply_sorting_rules env fs db p h (rule :: rest)).matchedRule =
          (apply_sorting_rules env fs db p h rest).matchedRule ∧
      (apply_sorting_rules env fs db p h (rule :: rest)).triedRules =
          rule.name :: (apply_sorting_rules env fs db p h rest).triedRules) := by
  refine ⟨?_, ?_, ?_⟩
  · intro env fs p rule _
    rcases match_rule_cases env fs p rule with h|h|h|h|h|h|h|h <;>
      rw [h] <;> decide
  · intro env fs p rule hpe hextok hnameok hc hpdf hnone
    have h1 : ¬ ((truthy rule.extensions &&
        !(rule.extensions.getD []).contains (strLower p.suffix)) = true) := by
      cases he : truthy rule.extensions with
      | false => simp
      | true =>
        have hmem : strLower p.suffix ∈ rule.extensions.getD [] := by
          simpa using hextok he
        simp [he, hmem]
    have h2 : ¬ ((truthy rule.name_contains &&
        !(rule.name_contains.getD []).any
          (fun kw => strHasSub (strLower p.name) kw)) = true) := by
      cases hn : truthy rule.name_contains with
      | false => simp
      | true => simp [hnameok hn]
    rw [match_rule_unfold env fs p rule hpe, if_neg h1, if_neg h2, if_pos hc,
      if_neg (by rw [hpdf]; exact fun hne => hne rfl), hnone]
  · intro env fs db p h rule rest hm
    simp [apply_sorting_rules, hm]

theorem c10_witness :
    (match_rule envAll [] pDoc rulePdf).reason ≠ "" ∧
    match_rule envAll [fDoc] pDoc ruleInv =
      ⟨false, "PDF content extraction failed or returned no text", 1⟩ ∧
    (apply_sorting_rules envAll [fDoc] [] pDoc (sha256 "x")
        (ruleTxt :: [rulePdf])).matchedRule =
      (apply_sorting_rules envAll [fDoc] [] pDoc (sha256 "x")
        [rulePdf]).matchedRule :=
  ⟨c10_matcher_total.1 envAll [] pDoc rulePdf (by decide),
   c10_matcher_total.2.1 envAll [fDoc] pDoc ruleInv (by decide) (by decide)
     (by decide) (by decide) (by decide) rfl,
   (c10_matcher_total.2.2 envAll [fDoc] [] pDoc (sha256 "x") ruleTxt [rulePdf]
     (by decide)).2.2.2.1⟩

/-! ### Claim C4 -/

theorem match_rule_calls_le (env : Env) (fs : FS) (p : FPath)
    (rule : SortingRule) :
    (match_rule env fs p rule).extractCalls ≤
      (if truthy rule.content_contains = true then 1 else 0) := by
  by_cases hc : truthy rule.content_contains = true
  · rw [if_pos hc]
    rcases match_rule_cases env fs p rule with h|h|h|h|h|h|h|h <;>
      rw [h] <;> decide
  · have hcf : truthy rule.content_contains = false := by simpa using hc
    rw [if_neg hc, match_rule_no_extract_of_untruthy env fs p rule hcf]

/-- A rule requiring the content keyword `alpha`. -/
def ruleCA : SortingRule :=
  { name := "CA", dest := "ca", content_contains := some ["alpha"]
  , priority := 1 }

/-- A rule requiring the content keyword `beta`. -/
def ruleCB : SortingRule :=
  { name := "CB", dest := "cb", content_contains := some ["beta"]
  , priority := 1 }

/-- Environment whose extractor always returns the text "beta text". -/
def envBeta : Env := ⟨fun _ _ => true, fun _ => some "beta text", fun _ => true⟩

/-- C4 counterexample: one pipeline pass over the single file `src/doc.pdf`
against the two content rules CA (keyword `alpha`, rejected) and CB (keyword
`beta`, matched) invokes the text extractor twice — the extraction result is
not reused across content rules, refuting "at most once per file per pass". -/
theorem c4_counterexample :
    (apply_sorting_rules envBeta [fDoc] [] pDoc (sha256 "x")
      [ruleCA, ruleCB]).extractCalls = 2 ∧
    ¬ ((apply_sorting_rules envBeta [fDoc] [] pDoc (sha256 "x")
      [ruleCA, ruleCB]).extractCalls ≤ 1) := by
  exact ⟨by rfl, by decide⟩

/-- C4 (amended): document-text extraction is invoked at most once per
`match_rule` call — only when the rule has content keywords — and hence at
most once per content-keyword rule attempted in a pass over one file (not at
most once per file: no extraction result is cached or reused across rules,
see `c4_counterexample`). -/
theorem c4_extraction_per_rule :
    (∀ (env : Env) (fs : FS) (p : FPath) (rule : SortingRule),
      (match_rule env fs p rule).extractCalls ≤
        (if truthy rule.content_contains = true then 1 else 0)) ∧
    (∀ (env : Env) (fs : FS) (db : Ledger) (p : FPath) (h : String)
        (rules : List SortingRule),
      (apply_sorting_rules env fs db p h rules).extractCalls ≤
        (rules.filter (fun r => truthy r.content_contains)).length) := by
  refine ⟨match_rule_calls_le, ?_⟩
  intro env fs db p h rules
  induction rules with
  | nil => simp [apply_sorting_rules]
  | cons rule rest ih =>
    have hle := match_rule_calls_le env fs p rule
    simp only [apply_sorting_rules]
    by_cases hm : (match_rule env fs p rule).matched = true
    · simp only [hm, if_true]
      by_cases hc : truthy rule.content_contains = true
      · rw [if_pos hc] at hle
        simp only [List.filter_cons, hc, if_true, List.length_cons]
        omega
      · rw [if_neg hc] at hle
        have hcf : truthy rule.content_contains = false := by simpa using hc
        simp only [List.filter_cons, hcf, Bool.false_eq_true, if_false]
        omega
    · simp only [Bool.not_eq_true] at hm
      simp only [hm, Bool.false_eq_true, if_false]
      by_cases hc : truthy rule.content_contains = true
      · rw [if_pos hc] at hle
        simp only [List.filter_cons, hc, if_true, List.length_cons]
        omega
      · rw [if_neg hc] at hle
        have hcf : truthy rule.content_contains = false := by simpa using hc
        simp only [List.filter_cons, hcf, Bool.false_eq_true, if_false]
        omega

/-! ### Claim C9 -/

theorem mem_insertDesc (r : SortingRule) (L : List SortingRule)
    (x : SortingRule) (hx : x ∈ insertDesc r L) : x = r ∨ x ∈ L := by
  induction L with
  | nil => simpa [insertDesc] using hx
  | cons y ys ih =>
    unfold insertDesc at hx
    by_cases hcond : y.priority ≤ r.priority
    · rw [if_pos hcond] at hx
      rcases List.mem_cons.mp hx with h | h
      · exact Or.inl h
      · exact Or.inr h
    · rw [if_neg hcond] at hx
      rcases List.mem_cons.mp hx with h | h
      · exact Or.inr (h ▸ List.mem_cons_self _ _)
      · rcases ih h with h' | h'
        · exact Or.inl h'
        · exact Or.inr (List.mem_cons_of_mem _ h')

theorem pairwise_insertDesc (r : SortingRule) (L : List SortingRule)
    (hL : L.Pairwise (fun a b => b.priority ≤ a.priority)) :
    (insertDesc r L).Pairwise (fun a b => b.priority ≤ a.priority) := by
  induction L with
  | nil => simp [insertDesc]
  | cons y ys ih =>
    rcases List.pairwise_cons.mp hL with ⟨hy, hys⟩
    unfold insertDesc
    by_cases hcond : y.priority ≤ r.priority
    · rw [if_pos hcond]
      refine List.pairwise_cons.mpr ⟨?_, hL⟩
      intro b hb
      rcases List.mem_cons.mp hb with h | h
      · rw [h]; exact hcond
      · exact le_trans (hy b h) hcond
    · rw [if_neg hcond]
      refine List.pairwise_cons.mpr ⟨?_, ih hys⟩
      intro b hb
      rcases mem_insertDesc r ys b hb with h | h
      · rw [h]; omega
      · exact hy b h

theorem sortRules_pairwise (l : List SortingRule) :
    (sortRules l).Pairwise (fun a b => b.priority ≤ a.priority) := by
  induction l with
  | nil => simp [sortRules]
  | cons r rs ih => exact pairwise_insertDesc r _ ih

theorem filter_insertDesc (r : SortingRule) (L : List SortingRule) (k : Nat) :
    (insertDesc r L).filter (fun x => x.priority == k) =
      (if r.priority == k then [r] else []) ++
        L.filter (fun x => x.priority == k) := by
  induction L with
  | nil =>
    by_cases hq : (r.priority == k) = true
    · simp [insertDesc, List.filter_cons, hq]
    · simp [insertDesc, List.filter_cons, hq]
  | cons y ys ih =>
    unfold insertDesc
    by_cases hcond : y.priority ≤ r.priority
    · rw [if_pos hcond]
      by_cases hq : (r.priority == k) = true
      · simp [List.filter_cons, hq]
      · simp [List.filter_cons, hq]
    · rw [if_neg hcond]
      rw [List.filter_cons, ih]
      by_cases hqy : (y.priority == k) = true
      · have hqr : ¬ ((r.priority == k) = true) := by
          rw [beq_iff_eq] at hqy ⊢
          omega
        simp [hqy, hqr]
      · simp [hqy]

theorem sortRules_filter_stable (l : List SortingRule) (k : Nat) :
    (sortRules l).filter (fun x => x.priority == k) =
      l.filter (fun x => x.priority == k) := by
  induction l with
  | nil => rfl
  | cons r rs ih =>
    show (insertDesc r (sortRules rs)).filter _ = _
    rw [filter_insertDesc, ih, List.filter_cons]
    by_cases hq : (r.priority == k) = true
    · simp [hq]
    · simp [hq]

theorem countTruthy_le_three (r : SortingRule) : countTruthy r ≤ 3 := by
  unfold countTruthy
  split_ifs <;> omega

/-- C9: a validated rule's priority is exactly the count of its non-empty
criteria groups (hence at most 3); a validated configuration's rule list is
sorted by descending priority, and for every priority level the subsequence
of rules at that level is exactly the configured subsequence in configured
order (stability — no rule is promoted above an equal-priority rule
configured before it); and a rule with zero criteria groups matches every
existing file. -/
theorem c9_priority_specificity :
    (∀ (name dest : String) (e n c : Option (List String)) (r : SortingRule),
      mkSortingRule name dest e n c = .ok r →
      r.priority = countTruthy r ∧ r.priority ≤ 3) ∧
    (∀ (s d : String) (l : List SortingRule) (cfg : Config),
      mkConfig s d l = .ok cfg →
      cfg.rules.Pairwise (fun a b => b.priority ≤ a.priority) ∧
      (∀ k, cfg.rules.filter (fun r => r.priority == k) =
        l.filter (fun r => r.priority == k))) ∧
    (∀ (env : Env) (fs : FS) (p : FPath) (rule : SortingRule),
      truthy rule.extensions = false → truthy rule.name_contains = false →
      truthy rule.content_contains = false → pathExists fs p = true →
      match_rule env fs p rule = ⟨true, "all criteria matched", 0⟩) := by
  refine ⟨?_, ?_, ?_⟩
  · intro name dest e n c r hmk
    simp only [mkSortingRule] at hmk
    by_cases h1 : pstrip name = ""
    · rw [if_pos h1] at hmk; simp at hmk
    · rw [if_neg h1] at hmk
      by_cases h2 : dest = ""
      · rw [if_pos h2] at hmk; simp at hmk
      · rw [if_neg h2] at hmk
        injection hmk with hr
        subst hr
        refine ⟨rfl, ?_⟩
        show countTruthy _ ≤ 3
        exact countTruthy_le_three _
  · intro s d l cfg hmk
    simp only [mkConfig] at hmk
    by_cases h1 : s = ""
    · rw [if_pos h1] at hmk; simp at hmk
    · rw [if_neg h1] at hmk
      by_cases h2 : d = ""
      · rw [if_pos h2] at hmk; simp at hmk
      · rw [if_neg h2] at hmk
        by_cases h3 : s = d
        · rw [if_pos h3] at hmk; simp at hmk
        · rw [if_neg h3] at hmk
          injection hmk with hc
          subst hc
          exact ⟨sortRules_pairwise l, fun k => sortRules_filter_stable l k⟩
  · intro env fs p rule he hn hc hpe
    rw [match_rule_unfold env fs p rule hpe, if_neg (by simp [he]),
      if_neg (by simp [hn]), if_neg (by simp [hc])]

/-- A rule with zero criteria groups (matches every file). -/
def rule0 : SortingRule := { name := "All", dest := "misc" }

theorem c9_witness :
    (ruleR2.priority = countTruthy ruleR2 ∧ ruleR2.priority ≤ 3) ∧
    (Config.mk "src" "dup" (sortRules [ruleR1, ruleR2])).rules.Pairwise
      (fun a b => b.priority ≤ a.priority) ∧
    (Config.mk "src" "dup" (sortRules [ruleR1, ruleR2])).rules.filter
        (fun r => r.priority == 1) =
      ([ruleR1, ruleR2] : List SortingRule).filter (fun r => r.priority == 1) ∧
    match_rule envAll [fDoc] pDoc rule0 = ⟨true, "all criteria matched", 0⟩ :=
  ⟨c9_priority_specificity.1 "R2" "invdest" (some [".pdf"]) (some ["invoice"])
      none ruleR2 (by rfl),
   (c9_priority_specificity.2.1 "src" "dup" [ruleR1, ruleR2] _ (by rfl)).1,
   (c9_priority_specificity.2.1 "src" "dup" [ruleR1, ruleR2] _ (by rfl)).2 1,
   c9_priority_specificity.2.2 envAll [fDoc] pDoc rule0 rfl rfl rfl (by decide)⟩

end Cortex
